import Mathlib

/-!
# Verification of the qcomm_web_scraper matching/analysis core

Shallow embedding of the price-comparison core of the repository:
* `backend/models.py` — `ProductMatcher` (name normalization, similarity
  scoring, cross-platform matching, deal ranking);
* `backend/utils.py` — `PriceAnalyzer.calculate_statistics`;
* `backend/scraping/zepto.py` — `ZeptoScraper.clean_weight`.

Strings are modelled over ASCII (Python's regexes run in Unicode mode, but
every behaviour checked here is about ASCII data).  Prices are modelled as
rationals, pandas' NaN results as `Option.none`.
-/

/-! ## Character-level model of the Python string primitives -/

/-- The whitespace class of Python's `\s` / `str.split()` / `str.strip()`
(ASCII fragment). -/
def isPySpace (c : Char) : Bool :=
  c = ' ' || c = '\t' || c = '\n' || c = '\r' || c = '\x0b' || c = '\x0c'

/-- Python's `\w` word-character class (ASCII fragment): alphanumeric or
underscore.  Note that underscore is a word character. -/
def pyIsWordChar (c : Char) : Bool :=
  c.isAlphanum || c = '_'

/-- A character kept by `re.sub(r'[^\w\s]', '', ·)`: word character or
whitespace. -/
def keepChar (c : Char) : Bool :=
  pyIsWordChar c || isPySpace c

/-- Python `str.lower` on a single character (ASCII fragment):
`'A'..'Z'` (codepoints 65–90) map to `'a'..'z'`. -/
def pyToLower (c : Char) : Char :=
  if 64 < c.toNat ∧ c.toNat < 91 then Char.ofNat (c.toNat + 32) else c

/-- Python `str.lower` on a string (ASCII fragment). -/
def pyLower (s : String) : String :=
  String.mk (s.toList.map pyToLower)

/-- Worker for `collapseWS`: the flag records whether we are inside a
whitespace run whose single `' '` has already been emitted. -/
def collapseWSAux : List Char → Bool → List Char
  | [], _ => []
  | c :: cs, inRun =>
    if isPySpace c then
      if inRun then collapseWSAux cs true else ' ' :: collapseWSAux cs true
    else c :: collapseWSAux cs false

/-- `re.sub(r'\s+', ' ', ·)`: every maximal run of whitespace becomes a
single `' '`. -/
def collapseWS (l : List Char) : List Char := collapseWSAux l false

/-- Right-strip: remove trailing whitespace. -/
def rstripWS (l : List Char) : List Char :=
  (l.reverse.dropWhile isPySpace).reverse

/-- Python `str.strip()`: remove leading and trailing whitespace. -/
def pyStrip (l : List Char) : List Char :=
  rstripWS (l.dropWhile isPySpace)

namespace ProductMatcher

/-- `ProductMatcher.normalize_name` (`backend/models.py`):
lower-case, delete `[^\w\s]`, collapse `\s+` to a single space, strip. -/
def normalize_name (name : String) : String :=
  String.mk (pyStrip (collapseWS ((name.toList.map pyToLower).filter keepChar)))

end ProductMatcher

/-! ## Word-splitting view used to reason about `normalize_name` -/

/-- Worker for `splitWords`: returns the word currently being read (the one
the start of the list belongs to, possibly empty) and the words after it. -/
def splitWordsAux : List Char → List Char × List (List Char)
  | [] => ([], [])
  | c :: cs =>
    let r := splitWordsAux cs
    if isPySpace c then ([], if r.1.isEmpty then r.2 else r.1 :: r.2)
    else (c :: r.1, r.2)

/-- Python `str.split()` (split on whitespace runs, no empty tokens),
on character lists. -/
def splitWords (l : List Char) : List (List Char) :=
  let r := splitWordsAux l
  if r.1.isEmpty then r.2 else r.1 :: r.2

/-- Join words with single spaces (`' '.join`). -/
def joinWords : List (List Char) → List Char
  | [] => []
  | [w] => w
  | w :: ws => w ++ ' ' :: joinWords ws

/-- The single space that `collapseWS` leaves at the front of its output
when the input starts with whitespace (used to relate `collapseWS` to
`splitWords`). -/
def wsMarker : List Char → List Char
  | [] => []
  | c :: _ => if isPySpace c then [' '] else []

/-- `normalize_name` as the spec words it: the whitespace-delimited words of
the lower-cased, `[^\w\s]`-stripped text, joined by single spaces
(collapsing runs of whitespace and trimming the ends). -/
def normalize_name_spec (name : String) : String :=
  String.mk (joinWords (splitWords ((name.toList.map pyToLower).filter keepChar)))

/-! ## Fuzzy string similarity (`fuzzywuzzy.fuzz.token_sort_ratio`) -/

/-- One row of the longest-common-subsequence dynamic program.
Given the previous row `p0 :: ps` (cells for the prefixes of `b :: bs`)
and the cell `left` just computed for the new row, produce the remaining
cells of the new row. -/
def lcsRowAux (c : Char) : List Char → List Nat → Nat → List Nat
  | b :: bs, p0 :: ps, left =>
    let v := if c = b then p0 + 1 else max left (ps.headD 0)
    v :: lcsRowAux c bs ps v
  | _, _, _ => []

/-- Length of a longest common subsequence of two character lists
(row-by-row dynamic program). -/
def lcsLen (as bs : List Char) : Nat :=
  (as.foldl (fun row c => 0 :: lcsRowAux c bs row 0)
    (List.replicate (bs.length + 1) 0)).getLastD 0

/-- Python's `round` on the exact rational `num / den`
(round half to even), as used by `fuzzywuzzy.utils.intr`. -/
def pyRound (num den : Nat) : Nat :=
  let q := num / den
  let r := num % den
  if 2 * r < den then q
  else if den < 2 * r then q + 1
  else if q % 2 = 0 then q else q + 1

/-- `fuzz.ratio` on two already-processed strings: 0 when either string is
empty (fuzzywuzzy's `check_empty_string` guard), otherwise the
`SequenceMatcher`/Levenshtein similarity `round(100 * 2*M / (|s1|+|s2|))`
where `M` is the length of a longest common subsequence. -/
def fuzz_ratio (s1 s2 : String) : Nat :=
  if s1.isEmpty || s2.isEmpty then 0
  else pyRound (200 * lcsLen s1.toList s2.toList) (s1.length + s2.length)

/-- `fuzzywuzzy.utils.full_process`: replace non-word characters by spaces,
lower-case, strip. -/
def full_process (s : String) : String :=
  String.mk (pyStrip ((s.toList.map (fun c => if pyIsWordChar c then c else ' ')).map pyToLower))

/-- Strict lexicographic comparison of character lists by codepoint —
Python's `<` on strings. -/
def lexLT : List Char → List Char → Bool
  | [], [] => false
  | [], _ :: _ => true
  | _ :: _, [] => false
  | a :: as, b :: bs => if a < b then true else if b < a then false else lexLT as bs

/-- The string order used by Python's `sorted` on the token list:
`a ≤ b` iff not `b < a`. -/
def tokenLE (a b : List Char) : Prop := lexLT b a = false

instance : DecidableRel tokenLE := fun a b =>
  inferInstanceAs (Decidable (lexLT b a = false))

/-- `fuzzywuzzy.fuzz._process_and_sort`: full-process, split into tokens
(`str.split()`), sort them, join with single spaces. -/
def process_and_sort (s : String) : String :=
  String.mk (joinWords ((splitWords (full_process s).toList).insertionSort tokenLE))

/-- `fuzz.token_sort_ratio`. -/
def token_sort_ratio (s1 s2 : String) : Nat :=
  fuzz_ratio (process_and_sort s1) (process_and_sort s2)

namespace ProductMatcher

/-- `ProductMatcher.calculate_similarity` (`backend/models.py`):
token-sort ratio of the normalized names, plus a bonus of 20 when both
weight strings are non-empty and equal, capped at 100.  The Python value is
an `int`; it is compared against a float threshold, so it is modelled as
the corresponding rational. -/
def calculate_similarity (name1 name2 weight1 weight2 : String) : ℚ :=
  let name_sim := token_sort_ratio (normalize_name name1) (normalize_name name2)
  let weight_bonus : Nat :=
    if !weight1.isEmpty && !weight2.isEmpty && weight1 = weight2 then 20 else 0
  ((min 100 (name_sim + weight_bonus) : Nat) : ℚ)

end ProductMatcher

/-! ## Data model (`backend/models.py`) -/

/-- One row of the scraped-products table: the columns of the
`pd.DataFrame` read by the matcher and the statistician. -/
structure Row where
  name : String
  brand : String
  weight_clean : String
  price_numeric : ℚ
  platform : String
deriving DecidableEq, Repr

/-- `ProductMatch` dataclass (`backend/models.py`). -/
structure ProductMatch where
  product_name : String
  brand : String
  weight : String
  platform1 : String
  price1 : ℚ
  platform2 : String
  price2 : ℚ
  price_diff : ℚ
  price_diff_pct : ℚ
  similarity : ℚ
  cheaper_platform : String
  savings : ℚ
deriving DecidableEq, Repr

/-- `df['platform'].unique()`: distinct values in order of first
appearance. -/
def uniqueFirst (l : List String) : List String :=
  l.foldl (fun acc x => if x ∈ acc then acc else acc ++ [x]) []

/-- Python's `abs` on rationals. -/
def pyAbs (q : ℚ) : ℚ := if q < 0 then -q else q

/-- Python's binary `max` on rationals. -/
def pyMax (a b : ℚ) : ℚ := if a < b then b else a

namespace ProductMatcher

/-- The `ProductMatch` built by `match_products` for a qualifying pair
(`backend/models.py`, lines 117–137). -/
def buildMatch (platform1 platform2 : String) (row1 row2 : Row) (similarity : ℚ) :
    ProductMatch :=
  let price_diff := pyAbs (row1.price_numeric - row2.price_numeric)
  let max_price := pyMax row1.price_numeric row2.price_numeric
  let price_diff_pct := if max_price > 0 then price_diff / max_price * 100 else 0
  let cheaper := if row1.price_numeric < row2.price_numeric then platform1 else platform2
  { product_name := row1.name
    brand := row1.brand
    weight := row1.weight_clean
    platform1 := platform1
    price1 := row1.price_numeric
    platform2 := platform2
    price2 := row2.price_numeric
    price_diff := price_diff
    price_diff_pct := price_diff_pct
    similarity := similarity
    cheaper_platform := cheaper
    savings := price_diff }

/-- `ProductMatcher.match_products` (`backend/models.py`): for every pair of
distinct platforms with `platform1 < platform2` (string order), compare
every product of the first platform with every product of the second and
emit a `ProductMatch` whenever the similarity reaches the threshold. -/
def match_products (df : List Row) (threshold : ℚ) : List ProductMatch :=
  let platforms := uniqueFirst (df.map (·.platform))
  if platforms.length < 2 then []
  else
    platforms.flatMap fun platform1 =>
      let df1 := df.filter (fun r => r.platform = platform1)
      (platforms.filter (fun platform2 => lexLT platform1.toList platform2.toList)).flatMap
          fun platform2 =>
        let df2 := df.filter (fun r => r.platform = platform2)
        df1.flatMap fun row1 =>
          df2.filterMap fun row2 =>
            let similarity :=
              calculate_similarity row1.name row2.name row1.weight_clean row2.weight_clean
            if similarity ≥ threshold then
              some (buildMatch platform1 platform2 row1 row2 similarity)
            else none

/-- The descending-savings comparison used by `get_best_deals`
(`key=lambda x: x.savings, reverse=True`). -/
def savingsGE (a b : ProductMatch) : Prop := b.savings ≤ a.savings

instance : DecidableRel savingsGE := fun a b =>
  inferInstanceAs (Decidable (b.savings ≤ a.savings))

instance : IsTotal ProductMatch savingsGE :=
  ⟨fun a b => le_total b.savings a.savings⟩

instance : IsTrans ProductMatch savingsGE :=
  ⟨fun _ _ _ h1 h2 => le_trans h2 h1⟩

/-- `ProductMatcher.get_best_deals` (`backend/models.py`):
`sorted(matches, key=lambda x: x.savings, reverse=True)[:top_n]`.
Python's `sorted` with `reverse=True` is a stable sort by descending key;
it is modelled by the (stable) insertion sort. -/
def get_best_deals (ms : List ProductMatch) (top_n : Nat) : List ProductMatch :=
  (ms.insertionSort savingsGE).take top_n

/-- State-passing model of the call `get_best_deals(matches)`:
the caller's store of lists is threaded through explicitly.  Python's
`sorted` builtin allocates a fresh list and reads — never writes — its
argument, so the call returns the store unchanged together with the new
list. -/
def get_best_deals_call (store : List (List ProductMatch)) (i : Nat) (top_n : Nat) :
    List (List ProductMatch) × List ProductMatch :=
  (store, get_best_deals (store.getD i []) top_n)

end ProductMatcher

/-! ## `ZeptoScraper.clean_weight` (`backend/scraping/zepto.py`) -/

namespace ZeptoScraper

/-- The unit alternation of the regex
`(\d+(?:\.\d+)?)\s*(g|kg|ml|l|gm|gram|piece|pcs)`, in source order.
Regex alternation is ordered: the first alternative that matches wins. -/
def unitAlternatives : List String := ["g", "kg", "ml", "l", "gm", "gram", "piece", "pcs"]

/-- Match the unit group at a position: first alternative that is a prefix
of the remaining text. -/
def matchUnitAt (l : List Char) : Option String :=
  unitAlternatives.find? (fun u => u.toList.isPrefixOf l)

/-- Attempt the whole pattern at one position: a non-empty digit run,
optionally `.` and a digit run (greedy, with backtracking to the
integer-only value), then `\s*` and the unit group.  Returns the two
capture groups `(value, unit)`. -/
def tryMatchAt (l : List Char) : Option (String × String) :=
  let ds := l.takeWhile Char.isDigit
  if ds.isEmpty then none
  else
    let rest := l.dropWhile Char.isDigit
    let afterWs : List Char → Option String := fun m => matchUnitAt (m.dropWhile isPySpace)
    match rest with
    | '.' :: r2 =>
      let ds2 := r2.takeWhile Char.isDigit
      if ds2.isEmpty then (afterWs rest).map (fun u => (String.mk ds, u))
      else
        match afterWs (r2.dropWhile Char.isDigit) with
        | some u => some (String.mk (ds ++ '.' :: ds2), u)
        | none => (afterWs rest).map (fun u => (String.mk ds, u))
    | _ => (afterWs rest).map (fun u => (String.mk ds, u))

/-- `re.search`: try the pattern at each position, leftmost match wins. -/
def searchWeight : List Char → Option (String × String)
  | [] => none
  | c :: cs => (tryMatchAt (c :: cs)).orElse (fun _ => searchWeight cs)

/-- `ZeptoScraper.clean_weight`: lower-case, search for the quantity+unit
pattern, and canonicalize g/gm/gram → `g`, kg → `kg`, piece/pcs → `pc`.
Any other matched unit (`ml`, `l`) falls through, returning the lower-cased
text; so does a failed search.  Empty input returns `""`. -/
def clean_weight (weight_text : String) : String :=
  if weight_text.isEmpty then ""
  else
    let lowered := pyLower weight_text
    match searchWeight lowered.toList with
    | some (value, unit) =>
      if unit = "g" || unit = "gm" || unit = "gram" then value ++ "g"
      else if unit = "kg" then value ++ "kg"
      else if unit = "piece" || unit = "pcs" then value ++ "pc"
      else lowered
    | none => lowered

end ZeptoScraper

/-! ## `PriceAnalyzer.calculate_statistics` (`backend/utils.py`) -/

namespace PriceAnalyzer

/-- `pandas.Series.mean`: NaN (modelled `none`) on an empty column. -/
def colMean (xs : List ℚ) : Option ℚ :=
  if xs.isEmpty then none else some (xs.sum / xs.length)

/-- `pandas.Series.median`: NaN on an empty column, else the middle of the
sorted values (mean of the two middles for even length). -/
def colMedian (xs : List ℚ) : Option ℚ :=
  let s := xs.insertionSort (· ≤ ·)
  let n := s.length
  if n = 0 then none
  else if n % 2 = 1 then some (s.getD (n / 2) 0)
  else some ((s.getD (n / 2 - 1) 0 + s.getD (n / 2) 0) / 2)

/-- `pandas.Series.std`: sample standard deviation (`N − 1` denominator),
NaN (modelled `none`) when fewer than 2 values. -/
noncomputable def sampleStd (xs : List ℚ) : Option ℝ :=
  if xs.length < 2 then none
  else
    let m : ℚ := xs.sum / xs.length
    some (Real.sqrt ((xs.map (fun x => ((x - m : ℚ) : ℝ) ^ 2)).sum / ((xs.length - 1 : ℕ) : ℝ)))

/-- The result dictionary of `PriceAnalyzer.calculate_statistics`. -/
structure Stats where
  total_products : Nat
  total_platforms : Nat
  total_brands : Nat
  avg_price : Option ℚ
  median_price : Option ℚ
  min_price : Option ℚ
  max_price : Option ℚ
  price_std : Option ℝ

/-- `PriceAnalyzer.calculate_statistics`: length, distinct platform and
brand counts, and mean/median/min/max/std of the numeric prices. -/
noncomputable def calculate_statistics (df : List Row) : Stats :=
  let prices := df.map (·.price_numeric)
  { total_products := df.length
    total_platforms := (uniqueFirst (df.map (·.platform))).length
    total_brands := (uniqueFirst (df.map (·.brand))).length
    avg_price := colMean prices
    median_price := colMedian prices
    min_price := prices.min?
    max_price := prices.max?
    price_std := sampleStd prices }

end PriceAnalyzer

/-! ## Concrete inputs used by the examples and witnesses -/

/-- The two-record example input from the spec (§8). -/
def exDf : List Row :=
  [{ name := "Britannia White Bread", brand := "Britannia", weight_clean := "400g",
     price_numeric := 45, platform := "A" },
   { name := "Britannia White Bread 400g", brand := "Britannia", weight_clean := "400g",
     price_numeric := 38, platform := "B" }]

/-- The single `ProductMatch` produced by `match_products exDf 75`. -/
def exMatch : ProductMatch :=
  { product_name := "Britannia White Bread", brand := "Britannia", weight := "400g",
    platform1 := "A", price1 := 45, platform2 := "B", price2 := 38, price_diff := 7,
    price_diff_pct := 140/9, similarity := 100, cheaper_platform := "B", savings := 7 }

/-- A two-record input with identical products at the same price on both
platforms. -/
def tieDf : List Row :=
  [{ name := "Britannia White Bread", brand := "Britannia", weight_clean := "400g",
     price_numeric := 45, platform := "A" },
   { name := "Britannia White Bread", brand := "Britannia", weight_clean := "400g",
     price_numeric := 45, platform := "B" }]

/-- The single `ProductMatch` produced by `match_products tieDf 75`. -/
def tieMatch : ProductMatch :=
  { product_name := "Britannia White Bread", brand := "Britannia", weight := "400g",
    platform1 := "A", price1 := 45, platform2 := "B", price2 := 45, price_diff := 0,
    price_diff_pct := 0, similarity := 100, cheaper_platform := "B", savings := 0 }

/-! ## The string order model agrees with `String.lt` -/

theorem lexLT_iff (a b : List Char) : lexLT a b = true ↔ List.lt a b := by
  induction a generalizing b with
  | nil =>
    cases b with
    | nil =>
      constructor
      · intro h; simp [lexLT] at h
      · intro h; cases h
    | cons c cs =>
      constructor
      · intro _; exact List.lt.nil c cs
      · intro _; rfl
  | cons a as ih =>
    cases b with
    | nil =>
      constructor
      · intro h; simp [lexLT] at h
      · intro h; cases h
    | cons b bs =>
      show (if a < b then true else if b < a then false else lexLT as bs) = true ↔ _
      by_cases hab : a < b
      · rw [if_pos hab]
        exact ⟨fun _ => List.lt.head _ _ hab, fun _ => rfl⟩
      · rw [if_neg hab]
        by_cases hba : b < a
        · rw [if_pos hba]
          constructor
          · intro h; simp at h
          · intro h
            cases h with
            | head _ _ h' => exact absurd h' hab
            | tail _ h' _ => exact absurd hba h'
        · rw [if_neg hba, ih bs]
          constructor
          · intro h; exact List.lt.tail hab hba h
          · intro h
            cases h with
            | head _ _ h' => exact absurd h' hab
            | tail _ _ h' => exact h'

/-! ## Destructuring membership in `match_products` -/

namespace ProductMatcher

theorem mem_match_products {df : List Row} {t : ℚ} {m : ProductMatch}
    (hm : m ∈ match_products df t) :
    ∃ p1 p2 r1 r2,
      lexLT p1.toList p2.toList = true ∧ r1 ∈ df ∧ r2 ∈ df ∧
      r1.platform = p1 ∧ r2.platform = p2 ∧
      calculate_similarity r1.name r2.name r1.weight_clean r2.weight_clean ≥ t ∧
      m = buildMatch p1 p2 r1 r2
        (calculate_similarity r1.name r2.name r1.weight_clean r2.weight_clean) := by
  unfold match_products at hm
  dsimp only at hm
  split at hm
  · simp at hm
  · simp only [List.mem_flatMap, List.mem_filter, List.mem_filterMap] at hm
    obtain ⟨p1, _, p2, ⟨_, hlt⟩, r1, hr1, r2, hr2, hsome⟩ := hm
    refine ⟨p1, p2, r1, r2, hlt, hr1.1, hr2.1,
      of_decide_eq_true hr1.2, of_decide_eq_true hr2.2, ?_⟩
    split at hsome
    · rename_i hsim
      exact ⟨hsim, (Option.some_inj.mp hsome).symm⟩
    · simp at hsome

end ProductMatcher

/-! ## Claim theorems -/

/-- C1: on the two-record example input (`exDf`) with threshold 75,
`match_products` returns exactly one `MatchRecord` (namely `exMatch`),
whose `cheaper_platform` is `"B"`, whose `savings` is `7.0`, and whose
`price_diff_pct` is approximately `15.56` (within `0.01`). -/
theorem C1_example_match :
    ProductMatcher.match_products exDf 75 = [exMatch] ∧
    exMatch.cheaper_platform = "B" ∧ exMatch.savings = 7 ∧
    pyAbs (exMatch.price_diff_pct - 1556/100) < 1/100 := by
  with_unfolding_all decide

/-- C2 (counterexample): on an input where the matched pair has equal
prices on platforms `"A"` and `"B"`, the emitted record has
`cheaper_platform = "B" = platform2`, not `platform1` as the claim
states. -/
theorem C2_counterexample :
    ProductMatcher.match_products tieDf 75 = [tieMatch] ∧
    tieMatch.price1 = tieMatch.price2 ∧ tieMatch.platform1 = "A" ∧
    tieMatch.platform2 = "B" ∧ tieMatch.cheaper_platform = "B" ∧
    tieMatch.cheaper_platform ≠ tieMatch.platform1 := by
  with_unfolding_all decide

/-- C2 (amended): for every `MatchRecord` emitted by `match_products`,
`cheaper_platform` is the platform of the strictly lower-priced side when
prices differ; on a price tie it is `platform2` (the strict `<` comparison
sends ties to the `else` branch). -/
theorem C2_cheaper_platform (df : List Row) (t : ℚ) (m : ProductMatch)
    (hm : m ∈ ProductMatcher.match_products df t) :
    (m.price1 = m.price2 → m.cheaper_platform = m.platform2) ∧
    (m.price1 < m.price2 → m.cheaper_platform = m.platform1) ∧
    (m.price2 < m.price1 → m.cheaper_platform = m.platform2) := by
  obtain ⟨p1, p2, r1, r2, -, -, -, -, -, -, rfl⟩ :=
    ProductMatcher.mem_match_products hm
  simp only [ProductMatcher.buildMatch]
  by_cases h : r1.price_numeric < r2.price_numeric
  · rw [if_pos h]
    exact ⟨fun he => absurd he (ne_of_lt h), fun _ => rfl,
      fun h' => absurd h (not_lt_of_gt h')⟩
  · rw [if_neg h]
    exact ⟨fun _ => rfl, fun h' => absurd h' h, fun _ => rfl⟩

/-- Witness for `C2_cheaper_platform`: applied to the tie input `tieDf`. -/
theorem C2_cheaper_platform_witness : tieMatch.cheaper_platform = tieMatch.platform2 :=
  (C2_cheaper_platform tieDf 75 tieMatch (by with_unfolding_all decide)).1
    (by with_unfolding_all decide)

/-- C3: `calculate_statistics` on an empty record sequence returns
`total_products = 0` and marks every aggregate — in particular the sample
standard deviation, undefined for fewer than 2 records — as the explicit
not-computable value `none`; being a total function, it raises no
exception. -/
theorem C3_overall_stats_empty :
    PriceAnalyzer.calculate_statistics [] =
      { total_products := 0, total_platforms := 0, total_brands := 0, avg_price := none,
        median_price := none, min_price := none, max_price := none, price_std := none } := by
  simp [PriceAnalyzer.calculate_statistics, PriceAnalyzer.colMean, PriceAnalyzer.colMedian,
    PriceAnalyzer.sampleStd, uniqueFirst]

/-- C5: `clean_weight` canonicalizes `"250 G" → "250g"`, `"1 Kg" → "1kg"`,
`"2 pcs" → "2pc"`; a matched `ml`/`l` unit falls through and returns the
lower-cased input unchanged (`"500 ml" → "500 ml"`); with no unit match the
lower-cased input is returned verbatim (`"Fresh Bread" → "fresh bread"`). -/
theorem C5_clean_weight_examples :
    ZeptoScraper.clean_weight "250 G" = "250g" ∧
    ZeptoScraper.clean_weight "1 Kg" = "1kg" ∧
    ZeptoScraper.clean_weight "2 pcs" = "2pc" ∧
    ZeptoScraper.clean_weight "500 ml" = "500 ml" ∧
    ZeptoScraper.clean_weight "Fresh Bread" = "fresh bread" := by
  decide

/-- C6: for all names and weight strings, `calculate_similarity` lies in
`[0, 100]`: the capped sum `min 100 (name_sim + bonus)` never exceeds 100
and is a natural number, hence never negative. -/
theorem C6_similarity_range (name1 name2 weight1 weight2 : String) :
    0 ≤ ProductMatcher.calculate_similarity name1 name2 weight1 weight2 ∧
    ProductMatcher.calculate_similarity name1 name2 weight1 weight2 ≤ 100 := by
  unfold ProductMatcher.calculate_similarity
  dsimp only
  constructor
  · exact Nat.cast_nonneg _
  · exact_mod_cast Nat.min_le_left 100 _

/-- C7: every `MatchRecord` emitted by `match_products` has `platform1`
strictly below `platform2` in the lexicographic order on platform
identifiers, `savings` equal to `price_diff`, and `similarity` at least the
threshold. -/
theorem C7_match_invariants (df : List Row) (t : ℚ) (m : ProductMatch)
    (hm : m ∈ ProductMatcher.match_products df t) :
    List.lt m.platform1.toList m.platform2.toList ∧
    m.savings = m.price_diff ∧ m.similarity ≥ t := by
  obtain ⟨p1, p2, r1, r2, hlt, -, -, -, -, hsim, rfl⟩ :=
    ProductMatcher.mem_match_products hm
  refine ⟨(lexLT_iff _ _).mp ?_, rfl, hsim⟩
  simpa [ProductMatcher.buildMatch] using hlt

/-- Witness for `C7_match_invariants`: applied to the example input
`exDf`. -/
theorem C7_match_invariants_witness :
    List.lt exMatch.platform1.toList exMatch.platform2.toList ∧
    exMatch.savings = exMatch.price_diff ∧ exMatch.similarity ≥ 75 :=
  C7_match_invariants exDf 75 exMatch (by with_unfolding_all decide)

/-- C10: the call `get_best_deals(matches)` leaves the caller's store
unchanged — Python's `sorted` builtin reads its argument and allocates a
fresh list, so in the state-passing model of the call the store component
of the result is exactly the input store, and the returned list is the
pure `get_best_deals` of the stored list. -/
theorem C10_no_mutation (store : List (List ProductMatch)) (i top_n : Nat) :
    (ProductMatcher.get_best_deals_call store i top_n).1 = store ∧
    (ProductMatcher.get_best_deals_call store i top_n).2 =
      ProductMatcher.get_best_deals (store.getD i []) top_n :=
  ⟨rfl, rfl⟩

/-- C4 (counterexample): the underscore is a `\w` word character, so
`re.sub(r'[^\w\s]', '', ·)` keeps it: `normalize_name "a_b" = "a_b"`, and
the surviving `'_'` is neither alphanumeric nor whitespace, contradicting
the claim that no such character survives. -/
theorem C4_counterexample :
    ProductMatcher.normalize_name "a_b" = "a_b" ∧
    '_' ∈ (ProductMatcher.normalize_name "a_b").toList ∧
    '_'.isAlphanum = false ∧ '_'.isWhitespace = false := by
  decide

/-- C8: `get_best_deals` returns `min top_n ms.length` records (so at most
`top_n`, fewer when the input is smaller), sorted by `savings` in
descending order, and for each savings value the returned records with
that value form a prefix of the input records with that value — i.e. ties
retain their relative input order (stable sort). -/
theorem C8_best_deals (ms : List ProductMatch) (top_n : Nat) :
    (ProductMatcher.get_best_deals ms top_n).length = min top_n ms.length ∧
    (ProductMatcher.get_best_deals ms top_n).Pairwise
      (fun a b => b.savings ≤ a.savings) ∧
    ∀ s : ℚ, (ProductMatcher.get_best_deals ms top_n).filter (fun m => m.savings = s) <+:
      ms.filter (fun m => m.savings = s) := by
  refine ⟨?_, ?_, ?_⟩
  · simp [ProductMatcher.get_best_deals, List.length_take, List.length_insertionSort]
  · exact ((List.sorted_insertionSort ProductMatcher.savingsGE ms).sublist
      (List.take_sublist _ _))
  · intro s
    set p : ProductMatch → Bool := fun m => m.savings = s with hp
    have hmemp : ∀ a ∈ ms.filter p, ∀ b ∈ ms.filter p, ProductMatcher.savingsGE a b := by
      intro a ha b hb
      simp only [hp, List.mem_filter, decide_eq_true_eq] at ha hb
      show b.savings ≤ a.savings
      rw [ha.2, hb.2]
    have hpw : (ms.filter p).Pairwise ProductMatcher.savingsGE :=
      List.pairwise_of_forall_mem_list hmemp
    have h1 : List.Sublist (ms.filter p) (ms.insertionSort ProductMatcher.savingsGE) :=
      List.sublist_insertionSort hpw (List.filter_sublist ms)
    have h2 : List.Perm ((ms.insertionSort ProductMatcher.savingsGE).filter p)
        (ms.filter p) :=
      (List.perm_insertionSort ProductMatcher.savingsGE ms).filter p
    have h3 : List.Sublist (ms.filter p)
        ((ms.insertionSort ProductMatcher.savingsGE).filter p) := by
      have := h1.filter p
      rwa [List.filter_filter, show (fun a => p a && p a) = p by
        funext a; cases p a <;> rfl] at this
    have h4 : (ms.insertionSort ProductMatcher.savingsGE).filter p = ms.filter p :=
      (h3.eq_of_length h2.length_eq.symm).symm
    have h5 : (ProductMatcher.get_best_deals ms top_n).filter p <+:
        (ms.insertionSort ProductMatcher.savingsGE).filter p :=
      (List.take_prefix top_n _).filter p
    rwa [h4] at h5

/-! ## Equations for `collapseWS`, `splitWords`, `rstripWS` -/

theorem collapseWSAux_true_eq (cs : List Char) :
    collapseWSAux cs true = collapseWSAux (cs.dropWhile isPySpace) false := by
  induction cs with
  | nil => rfl
  | cons d ds ih =>
    by_cases h : isPySpace d = true
    · rw [List.dropWhile_cons_of_pos h]
      show (if isPySpace d then
        if true then collapseWSAux ds true else ' ' :: collapseWSAux ds true
        else d :: collapseWSAux ds false) = _
      rw [if_pos h, if_pos rfl]
      exact ih
    · rw [List.dropWhile_cons_of_neg (by simpa using h)]
      show (if isPySpace d then
        if true then collapseWSAux ds true else ' ' :: collapseWSAux ds true
        else d :: collapseWSAux ds false) = _
      rw [if_neg (by simpa using h)]
      show _ = (if isPySpace d then
        if false then collapseWSAux ds true else ' ' :: collapseWSAux ds true
        else d :: collapseWSAux ds false)
      rw [if_neg (by simpa using h)]

theorem collapseWS_cons_space {c : Char} (h : isPySpace c = true) (cs : List Char) :
    collapseWS (c :: cs) = ' ' :: collapseWS (cs.dropWhile isPySpace) := by
  show (if isPySpace c then
      if false then collapseWSAux cs true else ' ' :: collapseWSAux cs true
      else c :: collapseWSAux cs false) = _
  rw [if_pos h]
  show ' ' :: collapseWSAux cs true = _
  rw [collapseWSAux_true_eq]
  rfl

theorem collapseWS_cons_nonspace {c : Char} (h : isPySpace c = false) (cs : List Char) :
    collapseWS (c :: cs) = c :: collapseWS cs := by
  show (if isPySpace c then
      if false then collapseWSAux cs true else ' ' :: collapseWSAux cs true
      else c :: collapseWSAux cs false) = _
  rw [if_neg (by simp [h])]
  rfl

theorem splitWordsAux_fst (cs : List Char) :
    (splitWordsAux cs).1 = cs.takeWhile (fun d => !isPySpace d) := by
  induction cs with
  | nil => rfl
  | cons d ds ih =>
    by_cases h : isPySpace d = true
    · rw [List.takeWhile_cons_of_neg (by simp [h])]
      simp [splitWordsAux, h]
    · rw [List.takeWhile_cons_of_pos (by simp [h])]
      simp only [splitWordsAux]
      rw [if_neg (by simp [h])]
      simpa using ih

theorem splitWordsAux_snd (cs : List Char) :
    (splitWordsAux cs).2 = splitWords (cs.dropWhile (fun d => !isPySpace d)) := by
  induction cs with
  | nil => rfl
  | cons d ds ih =>
    by_cases h : isPySpace d = true
    · rw [List.dropWhile_cons_of_neg (by simp [h])]
      simp only [splitWordsAux, splitWords]
      rw [if_pos h]
      simp
    · rw [List.dropWhile_cons_of_pos (by simp [h])]
      simp only [splitWordsAux]
      rw [if_neg (by simp [h])]
      exact ih

theorem splitWords_cons_space {c : Char} (h : isPySpace c = true) (cs : List Char) :
    splitWords (c :: cs) = splitWords cs := by
  simp only [splitWords, splitWordsAux]
  rw [if_pos h]
  simp

theorem splitWords_cons_nonspace {c : Char} (h : isPySpace c = false) (cs : List Char) :
    splitWords (c :: cs) = (c :: cs.takeWhile (fun d => !isPySpace d)) ::
      splitWords (cs.dropWhile (fun d => !isPySpace d)) := by
  have h1 : splitWordsAux (c :: cs) = (c :: (splitWordsAux cs).1, (splitWordsAux cs).2) := by
    simp only [splitWordsAux]
    rw [if_neg (by simp [h])]
  simp only [splitWords]
  rw [h1]
  rw [if_neg (by simp)]
  rw [splitWordsAux_fst, splitWordsAux_snd]
  rfl

theorem splitWords_dropWhile (cs : List Char) :
    splitWords (cs.dropWhile isPySpace) = splitWords cs := by
  induction cs with
  | nil => rfl
  | cons d ds ih =>
    by_cases h : isPySpace d = true
    · rw [List.dropWhile_cons_of_pos h, splitWords_cons_space h, ih]
    · rw [List.dropWhile_cons_of_neg (by simp [h])]

theorem rstripWS_cons (c : Char) (l : List Char) :
    rstripWS (c :: l) =
      if rstripWS l = [] then (if isPySpace c then [] else [c])
      else c :: rstripWS l := by
  unfold rstripWS
  rw [show (c :: l).reverse = l.reverse ++ [c] from List.reverse_cons c l,
    List.dropWhile_append]
  by_cases h : l.reverse.dropWhile isPySpace = []
  · rw [if_pos (by simp [h]), if_pos (by simp [h])]
    by_cases hc : isPySpace c = true
    · simp [hc]
    · simp [List.dropWhile_cons, hc]
  · rw [if_neg (by simp [h]), if_neg (by simp [h]), List.reverse_append]
    simp

theorem rstripWS_cons_nonspace {c : Char} (h : isPySpace c = false) (l : List Char) :
    rstripWS (c :: l) = c :: rstripWS l := by
  rw [rstripWS_cons]
  by_cases h' : rstripWS l = []
  · rw [if_pos h', if_neg (by simp [h]), h']
  · rw [if_neg h']

/-! ## Facts about the words produced by `splitWords` -/

theorem splitWords_ne_nil : ∀ (l : List Char), ∀ w ∈ splitWords l, w ≠ []
  | [] => by simp [splitWords, splitWordsAux]
  | c :: cs => by
    intro w hw
    by_cases h : isPySpace c = true
    · rw [splitWords_cons_space h] at hw
      exact splitWords_ne_nil cs w hw
    · rw [splitWords_cons_nonspace (by simpa using h)] at hw
      rcases List.mem_cons.mp hw with hw | hw
      · subst hw; simp
      · exact splitWords_ne_nil _ w hw
termination_by l => l.length
decreasing_by
  · simp
  · simp only [List.length_cons]
    exact Nat.lt_succ_of_le (List.dropWhile_sublist _).length_le

theorem splitWords_nonspace :
    ∀ (l : List Char), ∀ w ∈ splitWords l, ∀ c ∈ w, isPySpace c = false
  | [] => by simp [splitWords, splitWordsAux]
  | c :: cs => by
    intro w hw d hd
    by_cases h : isPySpace c = true
    · rw [splitWords_cons_space h] at hw
      exact splitWords_nonspace cs w hw d hd
    · rw [splitWords_cons_nonspace (by simpa using h)] at hw
      rcases List.mem_cons.mp hw with hw | hw
      · subst hw
        rcases List.mem_cons.mp hd with hd | hd
        · subst hd; simpa using h
        · simpa using List.mem_takeWhile_imp hd
      · exact splitWords_nonspace _ w hw d hd
termination_by l => l.length
decreasing_by
  · simp
  · simp only [List.length_cons]
    exact Nat.lt_succ_of_le (List.dropWhile_sublist _).length_le

theorem splitWords_subset :
    ∀ (l : List Char), ∀ w ∈ splitWords l, ∀ c ∈ w, c ∈ l
  | [] => by simp [splitWords, splitWordsAux]
  | c :: cs => by
    intro w hw d hd
    by_cases h : isPySpace c = true
    · rw [splitWords_cons_space h] at hw
      exact List.mem_cons_of_mem c (splitWords_subset cs w hw d hd)
    · rw [splitWords_cons_nonspace (by simpa using h)] at hw
      rcases List.mem_cons.mp hw with hw | hw
      · subst hw
        rcases List.mem_cons.mp hd with hd | hd
        · exact hd ▸ List.mem_cons_self _ _
        · exact List.mem_cons_of_mem c ((List.takeWhile_sublist _).subset hd)
      · exact List.mem_cons_of_mem c
          ((List.dropWhile_sublist _).subset (splitWords_subset _ w hw d hd))
termination_by l => l.length
decreasing_by
  · simp
  · simp only [List.length_cons]
    exact Nat.lt_succ_of_le (List.dropWhile_sublist _).length_le

/-! ## Facts about `joinWords` -/

theorem joinWords_cons (w : List Char) (ws : List (List Char)) :
    joinWords (w :: ws) = w ++ (if ws.isEmpty then [] else ' ' :: joinWords ws) := by
  cases ws with
  | nil => simp [joinWords]
  | cons v vs => simp [joinWords]

theorem joinWords_cons_head (c : Char) (w : List Char) (ws : List (List Char)) :
    joinWords ((c :: w) :: ws) = c :: joinWords (w :: ws) := by
  cases ws with
  | nil => simp [joinWords]
  | cons v vs => simp [joinWords]

theorem joinWords_ne_nil {w : List Char} (hw : w ≠ []) (ws : List (List Char)) :
    joinWords (w :: ws) ≠ [] := by
  rw [joinWords_cons]
  simp [hw]

theorem mem_joinWords {c : Char} :
    ∀ {W : List (List Char)}, c ∈ joinWords W → (∃ w ∈ W, c ∈ w) ∨ c = ' '
  | [], h => by simp [joinWords] at h
  | [w], h => Or.inl ⟨w, List.mem_cons_self _ _, h⟩
  | w :: v :: ws, h => by
    rw [show joinWords (w :: v :: ws) = w ++ ' ' :: joinWords (v :: ws) from rfl] at h
    rcases List.mem_append.mp h with h1 | h1
    · exact Or.inl ⟨w, List.mem_cons_self _ _, h1⟩
    · rcases List.mem_cons.mp h1 with h2 | h2
      · exact Or.inr h2
      · rcases mem_joinWords h2 with ⟨u, hu, hcu⟩ | hsp
        · exact Or.inl ⟨u, List.mem_cons_of_mem w hu, hcu⟩
        · exact Or.inr hsp

/-! ## `collapseWS` + strip computes the joined words -/

theorem wsMarker_dropWhile (cs : List Char) :
    wsMarker (cs.dropWhile isPySpace) = [] := by
  cases hd : cs.dropWhile isPySpace with
  | nil => rfl
  | cons d ds =>
    have hhead := List.head?_dropWhile_not isPySpace cs
    rw [hd] at hhead
    simp only [List.head?_cons] at hhead
    simp [wsMarker, hhead]

theorem rstrip_collapse_eq_words : ∀ (l : List Char),
    rstripWS (collapseWS l) =
      if splitWords l = [] then [] else wsMarker l ++ joinWords (splitWords l)
  | [] => by simp [collapseWS, collapseWSAux, rstripWS, splitWords, splitWordsAux, wsMarker]
  | c :: cs => by
    by_cases h : isPySpace c = true
    · rw [collapseWS_cons_space h, splitWords_cons_space h]
      have hIH := rstrip_collapse_eq_words (cs.dropWhile isPySpace)
      rw [splitWords_dropWhile cs, wsMarker_dropWhile cs] at hIH
      rw [rstripWS_cons]
      by_cases hsw : splitWords cs = []
      · rw [if_pos hsw] at hIH ⊢
        rw [if_pos (by rw [hIH])]
        decide
      · rw [if_neg hsw] at hIH ⊢
        rcases hw : splitWords cs with _ | ⟨w, ws⟩
        · exact absurd hw hsw
        · have hwne : w ≠ [] := splitWords_ne_nil cs w (by rw [hw]; exact List.mem_cons_self _ _)
          have hne : joinWords (splitWords cs) ≠ [] := by
            rw [hw]; exact joinWords_ne_nil hwne ws
          rw [if_neg (by rw [hIH]; simpa using hne)]
          rw [hIH]
          rw [hw]
          simp [wsMarker, h]
    · have h' : isPySpace c = false := by simpa using h
      rw [collapseWS_cons_nonspace h', splitWords_cons_nonspace h', rstripWS_cons_nonspace h']
      rw [if_neg (by simp)]
      have hIH := rstrip_collapse_eq_words cs
      simp only [wsMarker, h', if_neg Bool.false_ne_true, List.nil_append]
      rw [joinWords_cons_head]
      rcases hcs : cs with _ | ⟨d, ds⟩
      · simp only [List.takeWhile_nil, List.dropWhile_nil]
        rw [show splitWords [] = [] from rfl, show collapseWS [] = [] from rfl,
          show rstripWS [] = [] from rfl]
        simp [joinWords]
      · by_cases hd : isPySpace d = true
        · have htw : (d :: ds).takeWhile (fun x => !isPySpace x) = [] :=
            List.takeWhile_cons_of_neg (by simp [hd])
          have hdw : (d :: ds).dropWhile (fun x => !isPySpace x) = d :: ds :=
            List.dropWhile_cons_of_neg (by simp [hd])
          rw [htw, hdw]
          rw [hcs] at hIH
          rw [joinWords_cons]
          by_cases hsw : splitWords (d :: ds) = []
          · rw [if_pos hsw] at hIH
            rw [hIH, hsw]
            simp
          · rw [if_neg hsw] at hIH
            rw [hIH]
            simp only [wsMarker, hd, if_pos rfl]
            rcases hw : splitWords (d :: ds) with _ | ⟨w, ws⟩
            · exact absurd hw hsw
            · simp [List.isEmpty_cons]
        · have hd' : isPySpace d = false := by simpa using hd
          have htw : (d :: ds).takeWhile (fun x => !isPySpace x) =
              d :: ds.takeWhile (fun x => !isPySpace x) :=
            List.takeWhile_cons_of_pos (by simp [hd'])
          have hdw : (d :: ds).dropWhile (fun x => !isPySpace x) =
              ds.dropWhile (fun x => !isPySpace x) :=
            List.dropWhile_cons_of_pos (by simp [hd'])
          rw [htw, hdw]
          rw [hcs, splitWords_cons_nonspace hd'] at hIH
          rw [if_neg (by simp)] at hIH
          simp only [wsMarker, hd', if_neg Bool.false_ne_true, List.nil_append] at hIH
          rw [hIH]
termination_by l => l.length
decreasing_by
  · simp only [List.length_cons]
    exact Nat.lt_succ_of_le (List.dropWhile_sublist _).length_le
  · simp

theorem dropWhile_collapseWS (l : List Char) :
    (collapseWS l).dropWhile isPySpace = collapseWS (l.dropWhile isPySpace) := by
  cases l with
  | nil => rfl
  | cons c cs =>
    by_cases h : isPySpace c = true
    · rw [collapseWS_cons_space h, List.dropWhile_cons_of_pos h,
        List.dropWhile_cons_of_pos (show isPySpace ' ' = true from by decide)]
      cases hd : cs.dropWhile isPySpace with
      | nil => rfl
      | cons d ds =>
        have hhead := List.head?_dropWhile_not isPySpace cs
        rw [hd] at hhead
        simp only [List.head?_cons] at hhead
        rw [collapseWS_cons_nonspace hhead]
        exact List.dropWhile_cons_of_neg (by simp [hhead])
    · have h' : isPySpace c = false := by simpa using h
      rw [collapseWS_cons_nonspace h', List.dropWhile_cons_of_neg (by simp [h']),
        List.dropWhile_cons_of_neg (by simp [h']), collapseWS_cons_nonspace h']

/-- The two `re.sub` steps followed by `strip` compute exactly the
whitespace-delimited words joined by single spaces. -/
theorem pyStrip_collapseWS_eq_words (l : List Char) :
    pyStrip (collapseWS l) = joinWords (splitWords l) := by
  unfold pyStrip
  rw [dropWhile_collapseWS, rstrip_collapse_eq_words, splitWords_dropWhile,
    wsMarker_dropWhile]
  by_cases hsw : splitWords l = []
  · rw [if_pos hsw, hsw]
    rfl
  · rw [if_neg hsw]
    rfl

/-- Splitting the joined words recovers the word list, provided the words
are non-empty and contain no whitespace. -/
theorem splitWords_joinWords :
    ∀ (W : List (List Char)), (∀ w ∈ W, w ≠ []) →
      (∀ w ∈ W, ∀ c ∈ w, isPySpace c = false) → splitWords (joinWords W) = W
  | [], _, _ => rfl
  | w :: ws, hne, hns => by
    rcases hw : w with _ | ⟨c, w'⟩
    · exact absurd hw (hne w (List.mem_cons_self _ _))
    subst hw
    have hc : isPySpace c = false := hns _ (List.mem_cons_self _ _) c (List.mem_cons_self _ _)
    have hw' : ∀ a ∈ w', isPySpace a = false := fun a ha =>
      hns _ (List.mem_cons_self _ _) a (List.mem_cons_of_mem c ha)
    cases ws with
    | nil =>
      rw [show joinWords [c :: w'] = c :: w' from rfl, splitWords_cons_nonspace hc]
      rw [List.takeWhile_eq_self_iff.mpr (by intro a ha; simp [hw' a ha])]
      rw [List.dropWhile_eq_nil_iff.mpr (by intro a ha; simp [hw' a ha])]
      rfl
    | cons v vs =>
      rw [show joinWords ((c :: w') :: v :: vs) = (c :: w') ++ ' ' :: joinWords (v :: vs)
          from rfl,
        List.cons_append, splitWords_cons_nonspace hc]
      rw [List.takeWhile_append_of_pos (by intro a ha; simp [hw' a ha]),
        List.takeWhile_cons_of_neg (by decide), List.append_nil]
      rw [List.dropWhile_append_of_pos (by intro a ha; simp [hw' a ha]),
        List.dropWhile_cons_of_neg (by decide)]
      rw [splitWords_cons_space (by decide)]
      rw [splitWords_joinWords (v :: vs)
        (fun u hu => hne u (List.mem_cons_of_mem _ hu))
        (fun u hu => hns u (List.mem_cons_of_mem _ hu))]

/-! ## Idempotence of the lower-casing model -/

theorem pyToLower_ofNat_fixed :
    ∀ n : Nat, n < 91 → 64 < n → pyToLower (Char.ofNat (n + 32)) = Char.ofNat (n + 32) := by
  decide

theorem pyToLower_idem (c : Char) : pyToLower (pyToLower c) = pyToLower c := by
  by_cases h : 64 < c.toNat ∧ c.toNat < 91
  · have hc : pyToLower c = Char.ofNat (c.toNat + 32) := by rw [pyToLower, if_pos h]
    rw [hc]
    exact pyToLower_ofNat_fixed c.toNat h.2 h.1
  · have hc : pyToLower c = c := by rw [pyToLower, if_neg h]
    rw [hc]
    exact hc

/-! ## C4 (amended) and C9 -/

/-- C4 (amended): `normalize_name` returns the input lower-cased, with
every character that is neither a word character (alphanumeric or
underscore — Python's `\w`) nor whitespace removed, runs of whitespace
collapsed to a single space, and leading/trailing whitespace trimmed:
it equals the spec-worded form `normalize_name_spec`, the
whitespace-delimited words of the cleaned text joined by single spaces. -/
theorem C4_normalize_name_spec (name : String) :
    ProductMatcher.normalize_name name = normalize_name_spec name := by
  unfold ProductMatcher.normalize_name normalize_name_spec
  rw [pyStrip_collapseWS_eq_words]

/-- `normalize_name` in its joined-words normal form (helper shared by the
idempotence proof). -/
theorem normalize_name_words (name : String) :
    ProductMatcher.normalize_name name =
      String.mk (joinWords (splitWords ((name.toList.map pyToLower).filter keepChar))) := by
  unfold ProductMatcher.normalize_name
  rw [pyStrip_collapseWS_eq_words]

/-- C9: `normalize_name` is idempotent. -/
theorem C9_normalize_name_idempotent (x : String) :
    ProductMatcher.normalize_name (ProductMatcher.normalize_name x) =
      ProductMatcher.normalize_name x := by
  rcases hF : (x.toList.map pyToLower).filter keepChar with _ | _
  all_goals
    have hx := normalize_name_words x
    rw [hF] at hx
  case nil =>
    rw [hx]
    rfl
  case cons =>
    rw [← hF] at hx
    set F := (x.toList.map pyToLower).filter keepChar with hFdef
    set W := splitWords F with hW
    set L := joinWords W with hL
    have htl : (String.mk L).toList = L := rfl
    have hchars : ∀ c ∈ L, pyToLower c = c ∧ keepChar c = true := by
      intro c hc
      rcases mem_joinWords (hL ▸ hc) with ⟨w, hw, hcw⟩ | hsp
      · have hcF : c ∈ F := splitWords_subset F w (hW ▸ hw) c hcw
        have hcF' := List.mem_filter.mp hcF
        constructor
        · rcases List.mem_map.mp hcF'.1 with ⟨c0, -, rfl⟩
          exact pyToLower_idem c0
        · exact hcF'.2
      · subst hsp
        exact ⟨by decide, by decide⟩
    have hmap : L.map pyToLower = L :=
      (List.map_congr_left (fun a ha => (hchars a ha).1)).trans (List.map_id L)
    have hfil : L.filter keepChar = L :=
      List.filter_eq_self.mpr (fun a ha => (hchars a ha).2)
    have hwords : splitWords L = W := by
      rw [hL, hW]
      exact splitWords_joinWords (splitWords F) (splitWords_ne_nil F) (splitWords_nonspace F)
    rw [hx, normalize_name_words, htl, hmap, hfil, hwords, ← hL, ← hx]
